import Mathlib

/-!
Shallow embedding of the StockTracker repository (src/models/stock.py and
src/dashboard/app.py) and proofs about its specification claims.

Modelling conventions:
* A pandas timestamp index entry is a `Date` (year/month/day, ordered
  lexicographically); `pd.to_datetime` on an index that is already made of
  dates is the identity, so the coercion in `split_by_year` is a no-op here.
* A table cell is `Option ℚ`: `none` is a missing value (NaN in pandas),
  `some q` a finite numeric value.  `dropna` removes the `none` cells.
* The result cells of `rebase`/`normalize` are also `Option ℚ`, where `none`
  stands for a non-finite float (NaN or ±Inf) produced by dividing by zero;
  `pdiv` encodes pandas float division this way.  For a nonzero divisor,
  float division is modelled exactly by rational division.
* Python exceptions are `Except PdErr`; a method of `Stock` is embedded in
  state-passing style `Stock → ... → Except PdErr (result × Stock)`, with
  the returned `Stock` reflecting every assignment the method makes to
  `self` (none, for the three transforms; `load_data` assigns `self.data`).
* The filesystem cache is a function `FS : String → Option PriceTable`, and
  the remote provider `yf.download` is a parameter `dl` taking the ticker
  and the start/end dates (the `strftime` formatting of valid dates is
  injective, so the dates are passed directly).
-/

namespace StockTracker

/-- A calendar date, standing for one entry of the pandas datetime index. -/
structure Date where
  year : Int
  month : Int
  day : Int
deriving DecidableEq, Repr

/-- Lexicographic (chronological) order on dates. -/
def Date.le (a b : Date) : Prop :=
  a.year < b.year ∨
    (a.year = b.year ∧
      (a.month < b.month ∨ (a.month = b.month ∧ a.day ≤ b.day)))

instance : DecidableRel Date.le := by
  intro a b
  unfold Date.le
  exact inferInstance

instance : IsTotal Date Date.le := by
  constructor
  intro a b
  unfold Date.le
  omega

instance : IsTrans Date Date.le := by
  constructor
  intro a b c hab hbc
  unfold Date.le at hab hbc ⊢
  omega

/-- A pandas DataFrame of price data: a date index plus named columns of
optional (possibly-missing) numeric cells, in index order. -/
structure PriceTable where
  dates : List Date
  cols : List (String × List (Option ℚ))
deriving DecidableEq, Repr

/-- Column selection `df[c]`: the cell list of the first column named `c`,
or `none` when the column is absent (`c not in df.columns`). -/
def PriceTable.getCol (t : PriceTable) (c : String) : Option (List (Option ℚ)) :=
  (t.cols.find? (fun p => p.1 == c)).map (·.2)

/-- The `series.dropna()` of a date-indexed column: keep the rows whose cell
is present, in original order. -/
def dropna (s : List (Date × Option ℚ)) : List (Date × ℚ) :=
  s.filterMap (fun p => p.2.map (fun v => (p.1, v)))

/-- Pandas float division of finite values: `none` is the non-finite result
(NaN or ±Inf) of dividing by zero, otherwise the exact rational quotient. -/
def pdiv (x y : ℚ) : Option ℚ :=
  if y = 0 then none else some (x / y)

/-- `series.min()` of a non-empty series with head `v` and tail values
`rest`. -/
def seriesMin (v : ℚ) (rest : List ℚ) : ℚ :=
  rest.foldl min v

/-- `series.max()` of a non-empty series with head `v` and tail values
`rest`. -/
def seriesMax (v : ℚ) (rest : List ℚ) : ℚ :=
  rest.foldl max v

/-- The Python exceptions the embedded code can raise. -/
inductive PdErr where
  /-- `ValueError(msg)` as raised by the transform guards. -/
  | valueError (msg : String)
  /-- `IndexError` from `series.iloc[0]` on an empty series. -/
  | indexError
  /-- `AttributeError` from `None.strftime(...)`. -/
  | attributeError
deriving DecidableEq, Repr

/-- The guard message of the three transforms
(`f"Data not loaded or column '{column}' not found."`). -/
def dataNotLoadedMsg (column : String) : String :=
  "Data not loaded or column " ++ column ++ " not found."

/-- The `Stock` instance state: ticker symbol, cache directory, and the
loaded table (`self.data`, `None` before `load_data`). -/
structure Stock where
  ticker : String
  cache_dir : String
  data : Option PriceTable
deriving DecidableEq, Repr

/-- `Stock.rebase(column, base)`: guard on data/column, drop missing values,
divide by the first remaining value and multiply by `base`. -/
def Stock.rebase (st : Stock) (column : String) (base : ℚ) :
    Except PdErr (List (Date × Option ℚ) × Stock) :=
  match st.data with
  | none => .error (.valueError (dataNotLoadedMsg column))
  | some tbl =>
    match tbl.getCol column with
    | none => .error (.valueError (dataNotLoadedMsg column))
    | some vals =>
      match dropna (tbl.dates.zip vals) with
      | [] => .error .indexError
      | (d0, v0) :: rest =>
        .ok (((d0, v0) :: rest).map (fun p => (p.1, (pdiv p.2 v0).map (· * base))), st)

/-- `Stock.normalize(column)`: guard on data/column, drop missing values,
rescale by `(x - min) / (max - min) * 100`.  On an empty filtered series the
pandas expression yields an empty series (no exception). -/
def Stock.normalize (st : Stock) (column : String) :
    Except PdErr (List (Date × Option ℚ) × Stock) :=
  match st.data with
  | none => .error (.valueError (dataNotLoadedMsg column))
  | some tbl =>
    match tbl.getCol column with
    | none => .error (.valueError (dataNotLoadedMsg column))
    | some vals =>
      match dropna (tbl.dates.zip vals) with
      | [] => .ok ([], st)
      | (d, v) :: rest =>
        .ok (((d, v) :: rest).map
          (fun p => (p.1,
            (pdiv (p.2 - seriesMin v (rest.map Prod.snd))
              (seriesMax v (rest.map Prod.snd) - seriesMin v (rest.map Prod.snd))).map
              (· * 100))), st)

/-- `Stock.split_by_year(column)`: guard on data/column, rebase the whole
table once via `self.rebase(column)` (base 100), coerce the index to
datetime (the identity here), group by `index.year` (keys ascending, rows of
each group in original order, as pandas `groupby` does), and return the
year-to-group mapping in key order. -/
def Stock.split_by_year (st : Stock) (column : String) :
    Except PdErr (List (Int × List (Date × Option ℚ)) × Stock) :=
  match st.data with
  | none => .error (.valueError (dataNotLoadedMsg column))
  | some tbl =>
    match tbl.getCol column with
    | none => .error (.valueError (dataNotLoadedMsg column))
    | some _ =>
      match st.rebase column 100 with
      | .error e => .error e
      | .ok (rebased, st1) =>
        .ok (((List.insertionSort (· ≤ ·) ((rebased.map (fun p => p.1.year)).dedup)).map
          (fun y => (y, rebased.filter (fun p => p.1.year == y)))), st1)

/-- The on-disk cache: contents of the filesystem as a map from path to the
parquet-serialized table stored there. -/
abbrev FS : Type := String → Option PriceTable

/-- The cache path `os.path.join(cache_dir, f"{ticker}.parquet")`. -/
def cachePath (cache_dir ticker : String) : String :=
  cache_dir ++ "/" ++ ticker ++ ".parquet"

/-- `df.rename(columns={'Adj Close': 'adj_close'})` applied to a fresh
download before caching. -/
def renameAdj (t : PriceTable) : PriceTable :=
  { t with
    cols := t.cols.map (fun p => (if p.1 = "Adj Close" then "adj_close" else p.1, p.2)) }

/-- `Stock.load_data(years, start, end)`: fill in the default date range when
both bounds are omitted (`end` = today, `start` = Jan 1 of the year `years`
before today), then read the cache file if it exists, else download, rename
the adjusted-close column, write the cache file and keep the result.
`dl` is the remote provider, `fs` the filesystem before the call. -/
def Stock.load_data (st : Stock) (fs : FS) (dl : String → Date → Date → PriceTable)
    (today : Date) (years : Int) (startArg endArg : Option Date) :
    Except PdErr (Stock × FS) :=
  let startFilled : Option Date :=
    match startArg, endArg with
    | none, none => some ⟨today.year - years, 1, 1⟩
    | s, _ => s
  let endFilled : Option Date :=
    match startArg, endArg with
    | none, none => some today
    | _, e => e
  let path := cachePath st.cache_dir st.ticker
  match fs path with
  | some tbl => .ok ({ st with data := some tbl }, fs)
  | none =>
    match startFilled, endFilled with
    | some s, some e =>
      let df := renameAdj (dl st.ticker s e)
      .ok ({ st with data := some df }, fun p => if p = path then some df else fs p)
    | _, _ => .error .attributeError

/-- Label lookup of a date in a series (`series.loc[d]` under a unique
index): the value of the first row whose date is `d`. -/
def lookupDate (d : Date) (s : List (Date × ℚ)) : Option ℚ :=
  (s.find? (fun p => p.1 == d)).map (·.2)

/-- `merge_on_common_dates(series_dict)` from the dashboard: empty input
yields an empty table; otherwise inner-join all series on their common
dates (`pd.concat(..., axis=1, join="inner")`) and sort the index
ascending (`.sort_index()`).  Each output row pairs a common date with the
per-input values at that date, columns in input order. -/
def merge_on_common_dates (m : List (String × List (Date × ℚ))) :
    List (Date × List (Option ℚ)) :=
  match m with
  | [] => []
  | s0 :: rest =>
    (List.insertionSort Date.le
        (((s0.2.map Prod.fst).dedup).filter
          (fun d => (s0 :: rest).all (fun s => s.2.any (fun p => p.1 == d))))).map
      (fun d => (d, (s0 :: rest).map (fun s => lookupDate d s.2)))

/-- The column-selection and relabeling part of `load_adj_close_series`
applied to the loaded table: prefer "Adj Close", else "Close", else the
first column, else an empty series; drop missing values; name the series by
the ticker (returned as the pair's first component). -/
def load_adj_close_series (ticker : String) (tbl : PriceTable) :
    String × List (Date × ℚ) :=
  let colChoice : Option String :=
    if tbl.cols.any (fun p => p.1 == "Adj Close") then some "Adj Close"
    else if tbl.cols.any (fun p => p.1 == "Close") then some "Close"
    else
      match tbl.cols with
      | [] => none
      | c :: _ => some c.1
  match colChoice with
  | none => (ticker, [])
  | some c => (ticker, dropna (tbl.dates.zip ((tbl.getCol c).getD [])))

/-! ### Concrete fixtures

`exTable` is the spec's §8 example table: dates 2021-01-04, 2021-06-01,
2022-01-03, 2022-06-01 with Close 100, 150, 120, 180.  `zTable` has a zero
first value, `eqTable` an all-equal column, `noAdjTable` no adjusted-close
column, and `seriesA`/`seriesB` are the §8 merge example (dates 1,2,3 vs
2,3,4 of January 2021). -/

def exD1 : Date := ⟨2021, 1, 4⟩

def exD2 : Date := ⟨2021, 6, 1⟩

def exD3 : Date := ⟨2022, 1, 3⟩

def exD4 : Date := ⟨2022, 6, 1⟩

def exTable : PriceTable :=
  ⟨[exD1, exD2, exD3, exD4], [("Close", [some 100, some 150, some 120, some 180])]⟩

def exStock : Stock := ⟨"AAPL", "data/ohlcv", some exTable⟩

def zTable : PriceTable := ⟨[exD1, exD2], [("Close", [some 0, some 5])]⟩

def zStock : Stock := ⟨"ZERO", "data/ohlcv", some zTable⟩

def eqTable : PriceTable := ⟨[exD1, exD2], [("Close", [some 50, some 50])]⟩

def eqStock : Stock := ⟨"FLAT", "data/ohlcv", some eqTable⟩

def noAdjTable : PriceTable :=
  ⟨[exD1, exD2], [("Open", [some 1, some 2]), ("Close", [some 3, none])]⟩

def seriesA : List (Date × ℚ) :=
  [(⟨2021, 1, 1⟩, 10), (⟨2021, 1, 2⟩, 20), (⟨2021, 1, 3⟩, 30)]

def seriesB : List (Date × ℚ) :=
  [(⟨2021, 1, 2⟩, 200), (⟨2021, 1, 3⟩, 300), (⟨2021, 1, 4⟩, 400)]

/-! ### Helper lemmas -/

theorem foldl_min_le_init (a : ℚ) (l : List ℚ) : l.foldl min a ≤ a := by
  induction l generalizing a with
  | nil => exact le_refl a
  | cons x t ih => exact le_trans (ih (min a x)) (min_le_left a x)

theorem foldl_min_le_mem {x : ℚ} {l : List ℚ} (a : ℚ) (hx : x ∈ l) :
    l.foldl min a ≤ x := by
  induction l generalizing a with
  | nil => cases hx
  | cons y t ih =>
    rcases List.mem_cons.mp hx with h | h
    · subst h
      exact le_trans (foldl_min_le_init (min a x) t) (min_le_right a x)
    · exact ih (min a y) h

theorem init_le_foldl_max (a : ℚ) (l : List ℚ) : a ≤ l.foldl max a := by
  induction l generalizing a with
  | nil => exact le_refl a
  | cons x t ih => exact le_trans (le_max_left a x) (ih (max a x))

theorem mem_le_foldl_max {x : ℚ} {l : List ℚ} (a : ℚ) (hx : x ∈ l) :
    x ≤ l.foldl max a := by
  induction l generalizing a with
  | nil => cases hx
  | cons y t ih =>
    rcases List.mem_cons.mp hx with h | h
    · subst h
      exact le_trans (le_max_right a x) (init_le_foldl_max (max a x) t)
    · exact ih (max a y) h

theorem foldl_min_of_all_eq {v : ℚ} {l : List ℚ} (h : ∀ x ∈ l, x = v) :
    l.foldl min v = v := by
  induction l with
  | nil => rfl
  | cons y t ih =>
    have hy : y = v := h y (List.mem_cons_self y t)
    have : min v y = v := by rw [hy, min_self]
    simpa [List.foldl, this] using ih (fun x hx => h x (List.mem_cons_of_mem y hx))

theorem foldl_max_of_all_eq {v : ℚ} {l : List ℚ} (h : ∀ x ∈ l, x = v) :
    l.foldl max v = v := by
  induction l with
  | nil => rfl
  | cons y t ih =>
    have hy : y = v := h y (List.mem_cons_self y t)
    have : max v y = v := by rw [hy, max_self]
    simpa [List.foldl, this] using ih (fun x hx => h x (List.mem_cons_of_mem y hx))

/-- Characterization of `rebase` on a loaded stock with a present column and
a nonempty filtered series. -/
theorem rebase_eq {st : Stock} {tbl : PriceTable} {vals : List (Option ℚ)}
    {column : String} {d0 : Date} {v0 : ℚ} {rest : List (Date × ℚ)}
    (h1 : st.data = some tbl) (h2 : tbl.getCol column = some vals)
    (h3 : dropna (tbl.dates.zip vals) = (d0, v0) :: rest) (base : ℚ) :
    st.rebase column base =
      .ok (((d0, v0) :: rest).map (fun p => (p.1, (pdiv p.2 v0).map (· * base))), st) := by
  unfold Stock.rebase
  simp only [h1, h2, h3]

/-- Characterization of `normalize` on a loaded stock with a present column
and a nonempty filtered series. -/
theorem normalize_eq {st : Stock} {tbl : PriceTable} {vals : List (Option ℚ)}
    {column : String} {d : Date} {v : ℚ} {rest : List (Date × ℚ)}
    (h1 : st.data = some tbl) (h2 : tbl.getCol column = some vals)
    (h3 : dropna (tbl.dates.zip vals) = (d, v) :: rest) :
    st.normalize column =
      .ok (((d, v) :: rest).map
        (fun p => (p.1,
          (pdiv (p.2 - seriesMin v (rest.map Prod.snd))
            (seriesMax v (rest.map Prod.snd) - seriesMin v (rest.map Prod.snd))).map
            (· * 100))), st) := by
  unfold Stock.normalize
  simp only [h1, h2, h3]

/-- Characterization of `split_by_year` on a loaded stock with a present
column, in terms of the single global `rebase` it performs. -/
theorem split_by_year_eq {st : Stock} {tbl : PriceTable} {vals : List (Option ℚ)}
    {column : String} {rebased : List (Date × Option ℚ)} {st1 : Stock}
    (h1 : st.data = some tbl) (h2 : tbl.getCol column = some vals)
    (hreb : st.rebase column 100 = .ok (rebased, st1)) :
    st.split_by_year column =
      .ok (((List.insertionSort (· ≤ ·) ((rebased.map (fun p => p.1.year)).dedup)).map
        (fun y => (y, rebased.filter (fun p => p.1.year == y)))), st1) := by
  unfold Stock.split_by_year
  simp only [h1, h2, hreb]

/-- A successful `rebase` leaves the instance state unchanged. -/
theorem rebase_ok_state {st st1 : Stock} {column : String} {base : ℚ}
    {out : List (Date × Option ℚ)} (h : st.rebase column base = .ok (out, st1)) :
    st1 = st := by
  unfold Stock.rebase at h
  split at h
  · cases h
  · split at h
    · cases h
    · split at h
      · cases h
      · cases h
        rfl

/-- A successful `normalize` leaves the instance state unchanged. -/
theorem normalize_ok_state {st st1 : Stock} {column : String}
    {out : List (Date × Option ℚ)} (h : st.normalize column = .ok (out, st1)) :
    st1 = st := by
  unfold Stock.normalize at h
  split at h
  · cases h
  · split at h
    · cases h
    · split at h
      · cases h
        rfl
      · cases h
        rfl

/-- A successful `split_by_year` leaves the instance state unchanged. -/
theorem split_by_year_ok_state {st st1 : Stock} {column : String}
    {out : List (Int × List (Date × Option ℚ))}
    (h : st.split_by_year column = .ok (out, st1)) : st1 = st := by
  unfold Stock.split_by_year at h
  split at h
  · cases h
  · split at h
    · cases h
    · split at h
      · cases h
      · next heq =>
        cases h
        exact rebase_ok_state heq

/-- The `rebase` output of the example table (already based at 100 on its
first value). -/
def exRebased : List (Date × Option ℚ) :=
  [(exD1, some 100), (exD2, some 150), (exD3, some 120), (exD4, some 180)]

/-- The `split_by_year` output of the example table under the single global
rebase that the code performs. -/
def exSplit : List (Int × List (Date × Option ℚ)) :=
  [(2021, [(exD1, some 100), (exD2, some 150)]),
   (2022, [(exD3, some 120), (exD4, some 180)])]

/-- The `normalize` output of the example table
(`(x - 100) / (180 - 100) * 100`). -/
def exNormalized : List (Date × Option ℚ) :=
  [(exD1, some 0), (exD2, some (125 / 2)), (exD3, some 25), (exD4, some 100)]

/-! ### Claim theorems -/

/-- C4 counterexample: when the first non-missing value of the column is
zero, `rebase` does not return the base at the first row — it returns a
series of non-finite values (`none`), so "the value at the first non-missing
row equals base exactly" fails without a nonzero-divisor hypothesis. -/
theorem C4_counterexample_zero_first_value :
    zStock.rebase "Close" 100 = .ok ([(exD1, none), (exD2, none)], zStock) ∧
    ([((exD1 : Date), (none : Option ℚ)), (exD2, none)].head?.map Prod.snd = some none) ∧
    ((some (none : Option ℚ)) ≠ some (some (100 : ℚ))) := by
  refine ⟨by with_unfolding_all rfl, rfl, ?_⟩
  simp

/-- C4 (amended): provided the first non-missing value `v0` is nonzero,
`rebase` drops the missing values, divides every remaining value by `v0` and
multiplies by `base`; the first result value is exactly `base` and the
result index is the filtered row dates in original order. -/
theorem C4_rebase_divides_by_first_value (st : Stock) (tbl : PriceTable)
    (vals : List (Option ℚ)) (column : String) (base : ℚ) (d0 : Date) (v0 : ℚ)
    (rest : List (Date × ℚ))
    (h1 : st.data = some tbl) (h2 : tbl.getCol column = some vals)
    (h3 : dropna (tbl.dates.zip vals) = (d0, v0) :: rest) (hv0 : v0 ≠ 0) :
    st.rebase column base =
      .ok (((d0, v0) :: rest).map (fun p => (p.1, some (p.2 / v0 * base))), st) ∧
    (((d0, v0) :: rest).map (fun p => (p.1, some (p.2 / v0 * base)))).head? =
      some (d0, some base) ∧
    (((d0, v0) :: rest).map (fun p => (p.1, some (p.2 / v0 * base)))).map Prod.fst =
      ((d0, v0) :: rest).map Prod.fst := by
  refine ⟨?_, ?_, ?_⟩
  · rw [rebase_eq h1 h2 h3 base]
    simp [pdiv, hv0]
  · simp [div_self hv0]
  · simp

/-- C4 witness: the amended theorem applied to the spec's example table,
whose first Close value is 100 ≠ 0; the rebased series is 100, 150, 120,
180. -/
theorem C4_witness : exStock.rebase "Close" 100 = .ok (exRebased, exStock) := by
  have h := (C4_rebase_divides_by_first_value exStock exTable
    [some 100, some 150, some 120, some 180] "Close" 100 exD1 100
    [(exD2, 150), (exD3, 120), (exD4, 180)] rfl (by with_unfolding_all rfl)
    (by with_unfolding_all rfl) (by norm_num)).1
  rw [h]
  with_unfolding_all rfl

/-- C5: when the column has at least two distinct non-missing values,
`normalize` drops the missing values and rescales each value `x` to
`(x - min) / (max - min) * 100`, and every output value lies in `[0, 100]`
inclusive. -/
theorem C5_normalize_bounds (st : Stock) (tbl : PriceTable)
    (vals : List (Option ℚ)) (column : String) (d : Date) (v : ℚ)
    (rest : List (Date × ℚ))
    (h1 : st.data = some tbl) (h2 : tbl.getCol column = some vals)
    (h3 : dropna (tbl.dates.zip vals) = (d, v) :: rest)
    (hdist : ∃ a ∈ v :: rest.map Prod.snd, ∃ b ∈ v :: rest.map Prod.snd, a ≠ b) :
    st.normalize column =
      .ok (((d, v) :: rest).map
        (fun p => (p.1, some ((p.2 - seriesMin v (rest.map Prod.snd)) /
          (seriesMax v (rest.map Prod.snd) - seriesMin v (rest.map Prod.snd)) * 100))), st) ∧
    ∀ r ∈ ((d, v) :: rest).map
        (fun p => (p.1, some ((p.2 - seriesMin v (rest.map Prod.snd)) /
          (seriesMax v (rest.map Prod.snd) - seriesMin v (rest.map Prod.snd)) * 100))),
      ∃ q, r.2 = some q ∧ 0 ≤ q ∧ q ≤ 100 := by
  have hbound : ∀ x ∈ v :: rest.map Prod.snd,
      seriesMin v (rest.map Prod.snd) ≤ x ∧ x ≤ seriesMax v (rest.map Prod.snd) := by
    intro x hx
    rcases List.mem_cons.mp hx with h | h
    · subst h
      exact ⟨foldl_min_le_init x (rest.map Prod.snd), init_le_foldl_max x (rest.map Prod.snd)⟩
    · exact ⟨foldl_min_le_mem v h, mem_le_foldl_max v h⟩
  have hlt : seriesMin v (rest.map Prod.snd) < seriesMax v (rest.map Prod.snd) := by
    obtain ⟨a, ha, b, hb, hab⟩ := hdist
    rcases lt_or_le (seriesMin v (rest.map Prod.snd)) (seriesMax v (rest.map Prod.snd)) with h | h
    · exact h
    · exact absurd (le_antisymm
        (le_trans (hbound a ha).2 (le_trans h (hbound b hb).1))
        (le_trans (hbound b hb).2 (le_trans h (hbound a ha).1))) hab
  have hne : seriesMax v (rest.map Prod.snd) - seriesMin v (rest.map Prod.snd) ≠ 0 :=
    sub_ne_zero.mpr (ne_of_gt hlt)
  refine ⟨?_, ?_⟩
  · rw [normalize_eq h1 h2 h3]
    simp [pdiv, hne]
  · intro r hr
    obtain ⟨p, hp, rfl⟩ := List.mem_map.mp hr
    refine ⟨_, rfl, ?_, ?_⟩
    · have hmem : p.2 ∈ v :: rest.map Prod.snd := by
        rcases List.mem_cons.mp hp with h | h
        · rw [h]
          exact List.mem_cons_self _ _
        · exact List.mem_cons_of_mem _ (List.mem_map_of_mem Prod.snd h)
      have h0 : 0 ≤ (p.2 - seriesMin v (rest.map Prod.snd)) /
          (seriesMax v (rest.map Prod.snd) - seriesMin v (rest.map Prod.snd)) :=
        div_nonneg (sub_nonneg.mpr (hbound p.2 hmem).1) (le_of_lt (sub_pos.mpr hlt))
      positivity
    · have hmem : p.2 ∈ v :: rest.map Prod.snd := by
        rcases List.mem_cons.mp hp with h | h
        · rw [h]
          exact List.mem_cons_self _ _
        · exact List.mem_cons_of_mem _ (List.mem_map_of_mem Prod.snd h)
      have hdiv : (p.2 - seriesMin v (rest.map Prod.snd)) /
          (seriesMax v (rest.map Prod.snd) - seriesMin v (rest.map Prod.snd)) ≤ 1 :=
        (div_le_one (sub_pos.mpr hlt)).mpr
          (sub_le_sub_right (hbound p.2 hmem).2 _)
      calc (p.2 - seriesMin v (rest.map Prod.snd)) /
            (seriesMax v (rest.map Prod.snd) - seriesMin v (rest.map Prod.snd)) * 100
          ≤ 1 * 100 := by
            exact mul_le_mul_of_nonneg_right hdiv (by norm_num)
        _ = 100 := one_mul 100

/-- C5 witness: the theorem applied to the spec's example table (min 100,
max 180); the normalized series is 0, 62.5, 25, 100. -/
theorem C5_witness : exStock.normalize "Close" = .ok (exNormalized, exStock) := by
  have h := (C5_normalize_bounds exStock exTable
    [some 100, some 150, some 120, some 180] "Close" exD1 100
    [(exD2, 150), (exD3, 120), (exD4, 180)] rfl (by with_unfolding_all rfl)
    (by with_unfolding_all rfl)
    ⟨100, by simp, 150, by simp, by norm_num⟩).1
  rw [h]
  with_unfolding_all rfl

/-- C6: each of `rebase`, `normalize` and `split_by_year` raises the
"column/data not loaded" `ValueError` if and only if no table is loaded or
the requested column is absent from the loaded table; when the table is
loaded and contains the column, that error is never raised. -/
theorem C6_guard_error_iff (st : Stock) (column : String) (base : ℚ) :
    (st.rebase column base = .error (.valueError (dataNotLoadedMsg column)) ↔
      (st.data = none ∨ ∃ tbl, st.data = some tbl ∧ tbl.getCol column = none)) ∧
    (st.normalize column = .error (.valueError (dataNotLoadedMsg column)) ↔
      (st.data = none ∨ ∃ tbl, st.data = some tbl ∧ tbl.getCol column = none)) ∧
    (st.split_by_year column = .error (.valueError (dataNotLoadedMsg column)) ↔
      (st.data = none ∨ ∃ tbl, st.data = some tbl ∧ tbl.getCol column = none)) := by
  rcases hd : st.data with _ | tbl
  · have hr : st.rebase column base = .error (.valueError (dataNotLoadedMsg column)) := by
      unfold Stock.rebase
      rw [hd]
    have hn : st.normalize column = .error (.valueError (dataNotLoadedMsg column)) := by
      unfold Stock.normalize
      rw [hd]
    have hs : st.split_by_year column = .error (.valueError (dataNotLoadedMsg column)) := by
      unfold Stock.split_by_year
      rw [hd]
    simp [hr, hn, hs, hd]
  · rcases hc : tbl.getCol column with _ | vals
    · have hr : st.rebase column base = .error (.valueError (dataNotLoadedMsg column)) := by
        unfold Stock.rebase
        simp only [hd, hc]
      have hn : st.normalize column = .error (.valueError (dataNotLoadedMsg column)) := by
        unfold Stock.normalize
        simp only [hd, hc]
      have hs : st.split_by_year column = .error (.valueError (dataNotLoadedMsg column)) := by
        unfold Stock.split_by_year
        simp only [hd, hc]
      exact ⟨by simp [hr, hd, hc], by simp [hn, hd, hc], by simp [hs, hd, hc]⟩
    · rcases hdrop : dropna (tbl.dates.zip vals) with _ | ⟨⟨d0, v0⟩, rest⟩
      · have hr : st.rebase column base = .error .indexError := by
          unfold Stock.rebase
          simp only [hd, hc, hdrop]
        have hr100 : st.rebase column 100 = .error .indexError := by
          unfold Stock.rebase
          simp only [hd, hc, hdrop]
        have hn : st.normalize column = .ok ([], st) := by
          unfold Stock.normalize
          simp only [hd, hc, hdrop]
        have hs : st.split_by_year column = .error .indexError := by
          unfold Stock.split_by_year
          simp only [hd, hc, hr100]
        exact ⟨by simp [hr, hd, hc], by simp [hn, hd, hc], by simp [hs, hd, hc]⟩
      · have hr := rebase_eq hd hc hdrop base
        have hr100 := rebase_eq hd hc hdrop 100
        have hn := normalize_eq hd hc hdrop
        have hs := split_by_year_eq hd hc hr100
        exact ⟨by simp [hr, hd, hc], by simp [hn, hd, hc], by simp [hs, hd, hc]⟩

/-- C7 counterexample: on a column whose first value is zero, `rebase`
raises no degenerate-series error — it returns a series whose values are
all non-finite (`none`); likewise `normalize` on an all-equal column. -/
theorem C7_counterexample_no_degenerate_error :
    zStock.rebase "Close" 100 = .ok ([(exD1, none), (exD2, none)], zStock) ∧
    eqStock.normalize "Close" = .ok ([(exD1, none), (exD2, none)], eqStock) := by
  exact ⟨by with_unfolding_all rfl, by with_unfolding_all rfl⟩

/-- C7 (amended): when the rebase divisor (the first non-missing value) is
zero, or when the normalize range is zero because all non-missing values are
equal, the operation does not raise: it succeeds and every output value is
non-finite (silent NaN/Inf propagation). -/
theorem C7_degenerate_series_silent_nan :
    (∀ (st : Stock) (tbl : PriceTable) (vals : List (Option ℚ)) (column : String)
        (base : ℚ) (d0 : Date) (rest : List (Date × ℚ)),
      st.data = some tbl → tbl.getCol column = some vals →
      dropna (tbl.dates.zip vals) = (d0, 0) :: rest →
      st.rebase column base =
        .ok (((d0, (0 : ℚ)) :: rest).map (fun p => (p.1, (none : Option ℚ))), st)) ∧
    (∀ (st : Stock) (tbl : PriceTable) (vals : List (Option ℚ)) (column : String)
        (d : Date) (v : ℚ) (rest : List (Date × ℚ)),
      st.data = some tbl → tbl.getCol column = some vals →
      dropna (tbl.dates.zip vals) = (d, v) :: rest →
      (∀ x ∈ rest.map Prod.snd, x = v) →
      st.normalize column =
        .ok (((d, v) :: rest).map (fun p => (p.1, (none : Option ℚ))), st)) := by
  constructor
  · intro st tbl vals column base d0 rest h1 h2 h3
    rw [rebase_eq h1 h2 h3 base]
    simp [pdiv]
  · intro st tbl vals column d v rest h1 h2 h3 hall
    rw [normalize_eq h1 h2 h3]
    have hmn : seriesMin v (rest.map Prod.snd) = v := foldl_min_of_all_eq hall
    have hmx : seriesMax v (rest.map Prod.snd) = v := foldl_max_of_all_eq hall
    simp [pdiv, hmn, hmx]

/-- C10: a successful `rebase`, `normalize` or `split_by_year` call leaves
the `Stock` instance unchanged (same `ticker`, `cache_dir` and loaded
`data`); the final conjunct shows the hypotheses are satisfiable on the
example stock. -/
theorem C10_transforms_preserve_state :
    (∀ (st st1 : Stock) (column : String) (base : ℚ) (out : List (Date × Option ℚ)),
      st.rebase column base = .ok (out, st1) → st1 = st) ∧
    (∀ (st st1 : Stock) (column : String) (out : List (Date × Option ℚ)),
      st.normalize column = .ok (out, st1) → st1 = st) ∧
    (∀ (st st1 : Stock) (column : String) (out : List (Int × List (Date × Option ℚ))),
      st.split_by_year column = .ok (out, st1) → st1 = st) ∧
    (∃ out, exStock.rebase "Close" 100 = .ok (out, exStock)) ∧
    (∃ out, exStock.normalize "Close" = .ok (out, exStock)) ∧
    (∃ out, exStock.split_by_year "Close" = .ok (out, exStock)) := by
  refine ⟨?_, ?_, ?_, ?_, ?_, ?_⟩
  · intro st st1 column base out h
    exact rebase_ok_state h
  · intro st st1 column out h
    exact normalize_ok_state h
  · intro st st1 column out h
    exact split_by_year_ok_state h
  · exact ⟨exRebased, by with_unfolding_all rfl⟩
  · exact ⟨exNormalized, by with_unfolding_all rfl⟩
  · exact ⟨exSplit, by
      set_option maxRecDepth 20000 in with_unfolding_all rfl⟩

/-- C2: `split_by_year` computes the rebase once over the entire table and
returns, for each calendar year appearing in the index, the slice of that
single global rebase whose dates fall in that year; on the spec's example
table the result is 2021 ↦ [100, 150], 2022 ↦ [120, 180]. -/
theorem C2_split_slices_single_global_rebase :
    (∀ (st st1 stg : Stock) (tbl : PriceTable) (vals : List (Option ℚ))
        (column : String) (rebased : List (Date × Option ℚ))
        (groups : List (Int × List (Date × Option ℚ))),
      st.data = some tbl → tbl.getCol column = some vals →
      st.rebase column 100 = .ok (rebased, st1) →
      st.split_by_year column = .ok (groups, stg) →
      (∀ y, y ∈ groups.map Prod.fst ↔ y ∈ rebased.map (fun p => p.1.year)) ∧
      ∀ p ∈ groups, p.2 = rebased.filter (fun r => r.1.year == p.1)) ∧
    exStock.rebase "Close" 100 = .ok (exRebased, exStock) ∧
    exStock.split_by_year "Close" = .ok (exSplit, exStock) ∧
    exSplit = [(2021, [(exD1, some 100), (exD2, some 150)]),
               (2022, [(exD3, some 120), (exD4, some 180)])] := by
  refine ⟨?_, by with_unfolding_all rfl,
    by set_option maxRecDepth 20000 in with_unfolding_all rfl, rfl⟩
  intro st st1 stg tbl vals column rebased groups h1 h2 hreb hsplit
  have hkey := (split_by_year_eq h1 h2 hreb).symm.trans hsplit
  simp only [Except.ok.injEq, Prod.mk.injEq] at hkey
  obtain ⟨hgroups, -⟩ := hkey
  constructor
  · intro y
    rw [← hgroups, List.map_map]
    have hfst : (Prod.fst ∘ fun y => (y, rebased.filter (fun p => p.1.year == y))) = id := rfl
    rw [hfst, List.map_id]
    rw [(List.perm_insertionSort (· ≤ ·) _).mem_iff, List.mem_dedup]
  · intro p hp
    rw [← hgroups] at hp
    obtain ⟨y, hy, rfl⟩ := List.mem_map.mp hp
    rfl

/-- C3 counterexample: on the spec's example table, the 2022 sub-series
returned by `split_by_year` starts at 120, not 100 — the per-year
sub-series are not independently rebased within their year. -/
theorem C3_counterexample_2022_starts_at_120 :
    exStock.split_by_year "Close" = .ok (exSplit, exStock) ∧
    exSplit.map (fun p => (p.1, p.2.head?.map Prod.snd)) =
      [(2021, some (some 100)), (2022, some (some 120))] ∧
    ¬ ∀ p ∈ exSplit, p.2.head?.map Prod.snd = some (some 100) := by
  refine ⟨by set_option maxRecDepth 20000 in with_unfolding_all rfl, rfl, ?_⟩
  intro h
  have h2 := h (2022, [(exD3, some 120), (exD4, some 180)]) (by simp [exSplit])
  simp only [List.head?_cons, Option.map_some] at h2
  norm_num at h2

/-- C3 (amended): each per-year sub-series returned by `split_by_year` is
the year-slice of the single global rebase computed over the whole table,
so its first value is the globally rebased value at that year's first
trading day — 100 only for the year of the table's first non-missing row
(e.g. 120 for 2022 on the spec's example table). -/
theorem C3_first_values_follow_global_rebase :
    (∀ (st st1 stg : Stock) (tbl : PriceTable) (vals : List (Option ℚ))
        (column : String) (rebased : List (Date × Option ℚ))
        (groups : List (Int × List (Date × Option ℚ))),
      st.data = some tbl → tbl.getCol column = some vals →
      st.rebase column 100 = .ok (rebased, st1) →
      st.split_by_year column = .ok (groups, stg) →
      ∀ p ∈ groups,
        p.2.head? = (rebased.filter (fun r => r.1.year == p.1)).head?) ∧
    exSplit.map (fun p => p.2.head?.map Prod.snd) =
      [some (some 100), some (some 120)] := by
  refine ⟨?_, rfl⟩
  intro st st1 stg tbl vals column rebased groups h1 h2 hreb hsplit p hp
  have hkey := (split_by_year_eq h1 h2 hreb).symm.trans hsplit
  simp only [Except.ok.injEq, Prod.mk.injEq] at hkey
  obtain ⟨hgroups, -⟩ := hkey
  rw [← hgroups] at hp
  obtain ⟨y, hy, rfl⟩ := List.mem_map.mp hp
  rfl

/-- A column is absent exactly when no column of the table bears its name. -/
theorem getCol_none_any_false {t : PriceTable} {c : String} (h : t.getCol c = none) :
    t.cols.any (fun p => p.1 == c) = false := by
  unfold PriceTable.getCol at h
  rcases hf : t.cols.find? (fun p => p.1 == c) with _ | p
  · rw [List.find?_eq_none] at hf
    exact List.any_eq_false.mpr hf
  · rw [hf] at h
    cases h

/-- A present column witnesses the membership test `column in df.columns`. -/
theorem getCol_some_any_true {t : PriceTable} {c : String} {vals : List (Option ℚ)}
    (h : t.getCol c = some vals) : t.cols.any (fun p => p.1 == c) = true := by
  unfold PriceTable.getCol at h
  rcases hf : t.cols.find? (fun p => p.1 == c) with _ | p
  · rw [hf] at h
    cases h
  · have hp := List.find?_some hf
    exact List.any_eq_true.mpr ⟨p, List.mem_of_find?_eq_some hf, hp⟩

/-- Unfolding of `merge_on_common_dates` on a non-empty input. -/
theorem merge_cons_eq (s0 : String × List (Date × ℚ))
    (rest : List (String × List (Date × ℚ))) :
    merge_on_common_dates (s0 :: rest) =
      (List.insertionSort Date.le
          (((s0.2.map Prod.fst).dedup).filter
            (fun d => (s0 :: rest).all (fun s => s.2.any (fun p => p.1 == d))))).map
        (fun d => (d, (s0 :: rest).map (fun s => lookupDate d s.2))) := rfl

/-- C1: when a cache file exists for the ticker, `load_data` loads its full
contents — the requested date range is ignored — and writes nothing; hence
after a cache miss, any second load for the same ticker and cache directory
(any provider, any requested range, in particular a wider one) returns the
first download unchanged and leaves the filesystem as it was.  The final
conjunct shows a concrete miss-then-hit run. -/
theorem C1_cache_hit_returns_full_cache_unchanged :
    (∀ (st : Stock) (fs : FS) (dl : String → Date → Date → PriceTable)
        (today : Date) (years : Int) (startArg endArg : Option Date) (tbl : PriceTable),
      fs (cachePath st.cache_dir st.ticker) = some tbl →
      st.load_data fs dl today years startArg endArg =
        .ok ({ st with data := some tbl }, fs)) ∧
    (∀ (st st2 st1 : Stock) (fs fs1 : FS)
        (dl dl2 : String → Date → Date → PriceTable)
        (today today2 : Date) (years years2 : Int)
        (s1 e1 : Date) (startArg2 endArg2 : Option Date),
      fs (cachePath st.cache_dir st.ticker) = none →
      st.load_data fs dl today years (some s1) (some e1) = .ok (st1, fs1) →
      st2.ticker = st.ticker → st2.cache_dir = st.cache_dir →
      st2.load_data fs1 dl2 today2 years2 startArg2 endArg2 =
        .ok ({ st2 with data := some (renameAdj (dl st.ticker s1 e1)) }, fs1)) ∧
    (∃ (st1 : Stock) (fs1 : FS),
      Stock.load_data ⟨"AAPL", "cache", none⟩ (fun _ => none) (fun _ _ _ => exTable)
        ⟨2026, 10, 12⟩ 5 none none = .ok (st1, fs1) ∧
      st1.data = some exTable ∧
      fs1 (cachePath "cache" "AAPL") = some exTable) := by
  refine ⟨?_, ?_, ?_⟩
  · intro st fs dl today years startArg endArg tbl hfs
    unfold Stock.load_data
    simp only [hfs]
  · intro st st2 st1 fs fs1 dl dl2 today today2 years years2 s1 e1 startArg2 endArg2
      hfs hload ht hcd
    unfold Stock.load_data at hload
    simp only [hfs, Except.ok.injEq, Prod.mk.injEq] at hload
    obtain ⟨hst1, hfs1⟩ := hload
    have hpath : fs1 (cachePath st.cache_dir st.ticker) =
        some (renameAdj (dl st.ticker s1 e1)) := by
      rw [← hfs1]
      simp
    unfold Stock.load_data
    simp only [ht, hcd, hpath]
  · refine ⟨⟨"AAPL", "cache", some exTable⟩,
      fun p => if p = cachePath "cache" "AAPL" then some (renameAdj exTable) else none,
      by with_unfolding_all rfl, by with_unfolding_all rfl, by with_unfolding_all rfl⟩

/-- Values of `lookupDate` on a series with unique dates: the value stored
with the date. -/
theorem lookupDate_eq_some {s : List (Date × ℚ)} {d : Date} {v : ℚ}
    (hnd : (s.map Prod.fst).Nodup) (hm : (d, v) ∈ s) : lookupDate d s = some v := by
  induction s with
  | nil => cases hm
  | cons e t ih =>
    rw [List.map_cons] at hnd
    have hnd' := List.nodup_cons.mp hnd
    rcases List.mem_cons.mp hm with h | h
    · unfold lookupDate
      rw [List.find?_cons_of_pos t (by rw [← h]; exact beq_self_eq_true d), ← h]
      rfl
    · have hne : ¬ (e.1 == d) = true := by
        intro hbe
        rw [beq_iff_eq] at hbe
        have hdm : d ∈ t.map Prod.fst := List.mem_map_of_mem Prod.fst h
        rw [← hbe] at hdm
        exact hnd'.1 hdm
      unfold lookupDate
      rw [List.find?_cons_of_neg t hne]
      exact ih hnd'.2 h

/-- C8: `merge_on_common_dates` of a non-empty input yields rows at exactly
the dates present in every input series (strict intersection), in ascending
date order, each row holding the per-input looked-up values (which are the
stored values when the input dates are unique); the empty input map yields
the empty table; and the spec's example (dates 1,2,3 joined with 2,3,4)
yields exactly dates 2 and 3 with matching values. -/
theorem C8_merge_on_common_dates_intersection :
    (merge_on_common_dates [] = []) ∧
    (∀ (s0 : String × List (Date × ℚ)) (rest : List (String × List (Date × ℚ)))
        (d : Date),
      d ∈ (merge_on_common_dates (s0 :: rest)).map Prod.fst ↔
        ∀ s ∈ s0 :: rest, d ∈ s.2.map Prod.fst) ∧
    (∀ (m : List (String × List (Date × ℚ))),
      List.Sorted Date.le ((merge_on_common_dates m).map Prod.fst)) ∧
    (∀ (m : List (String × List (Date × ℚ))) (d : Date) (row : List (Option ℚ)),
      (d, row) ∈ merge_on_common_dates m → row = m.map (fun s => lookupDate d s.2)) ∧
    (∀ (s : List (Date × ℚ)) (d : Date) (v : ℚ),
      (s.map Prod.fst).Nodup → (d, v) ∈ s → lookupDate d s = some v) ∧
    merge_on_common_dates [("A", seriesA), ("B", seriesB)] =
      [(⟨2021, 1, 2⟩, [some 20, some 200]), (⟨2021, 1, 3⟩, [some 30, some 300])] := by
  refine ⟨rfl, ?_, ?_, ?_, ?_, ?_⟩
  · intro s0 rest d
    rw [merge_cons_eq, List.map_map]
    have hfst : (Prod.fst ∘ fun d => (d, (s0 :: rest).map (fun s => lookupDate d s.2))) =
        id := rfl
    rw [hfst, List.map_id]
    rw [(List.perm_insertionSort Date.le _).mem_iff, List.mem_filter, List.mem_dedup]
    simp only [List.all_eq_true, List.any_eq_true, beq_iff_eq, List.mem_map]
    constructor
    · rintro ⟨-, hall⟩ s hs
      obtain ⟨p, hp, hpd⟩ := hall s hs
      exact ⟨p, hp, hpd⟩
    · intro hall
      refine ⟨?_, fun s hs => hall s hs⟩
      obtain ⟨p, hp, hpd⟩ := hall s0 (List.mem_cons_self s0 rest)
      exact ⟨p, hp, hpd⟩
  · intro m
    rcases m with _ | ⟨s0, rest⟩
    · simp [merge_on_common_dates]
    · rw [merge_cons_eq, List.map_map]
      have hfst : (Prod.fst ∘ fun d => (d, (s0 :: rest).map (fun s => lookupDate d s.2))) =
          id := rfl
      rw [hfst, List.map_id]
      exact List.sorted_insertionSort Date.le _
  · intro m d row hm
    rcases m with _ | ⟨s0, rest⟩
    · cases hm
    · rw [merge_cons_eq] at hm
      obtain ⟨d', hd', heq⟩ := List.mem_map.mp hm
      obtain ⟨hd, hrow⟩ := Prod.mk.injEq .. ▸ heq
      rw [← hrow, hd]
  · exact fun s d v hnd hm => lookupDate_eq_some hnd hm
  · set_option maxRecDepth 40000 in with_unfolding_all rfl

/-- C9: loading the adjusted-close series from a loaded table that lacks
"Adj Close" but contains "Close" yields the Close column with missing
values dropped, labelled by the ticker; the full fallback order is
Adj Close, then Close, then the first column, then an empty series
(every column of a price table is numeric in this model). -/
theorem C9_load_adj_close_fallback_order :
    (∀ (ticker : String) (tbl : PriceTable) (vals : List (Option ℚ)),
      tbl.getCol "Adj Close" = none → tbl.getCol "Close" = some vals →
      load_adj_close_series ticker tbl = (ticker, dropna (tbl.dates.zip vals))) ∧
    (∀ (ticker : String) (tbl : PriceTable) (vals : List (Option ℚ)),
      tbl.getCol "Adj Close" = some vals →
      load_adj_close_series ticker tbl = (ticker, dropna (tbl.dates.zip vals))) ∧
    (∀ (ticker : String) (tbl : PriceTable) (c : String × List (Option ℚ))
        (cs : List (String × List (Option ℚ))),
      tbl.getCol "Adj Close" = none → tbl.getCol "Close" = none →
      tbl.cols = c :: cs →
      load_adj_close_series ticker tbl = (ticker, dropna (tbl.dates.zip c.2))) ∧
    (∀ (ticker : String) (tbl : PriceTable),
      tbl.cols = [] → load_adj_close_series ticker tbl = (ticker, [])) ∧
    load_adj_close_series "MSFT" noAdjTable = ("MSFT", [(exD1, 3)]) := by
  refine ⟨?_, ?_, ?_, ?_, by with_unfolding_all rfl⟩
  · intro ticker tbl vals hAdj hClose
    unfold load_adj_close_series
    rw [getCol_none_any_false hAdj, getCol_some_any_true hClose]
    simp [hClose]
  · intro ticker tbl vals hAdj
    unfold load_adj_close_series
    rw [getCol_some_any_true hAdj]
    simp [hAdj]
  · intro ticker tbl c cs hAdj hClose hcols
    unfold load_adj_close_series
    have hfirst : tbl.getCol c.1 = some c.2 := by
      unfold PriceTable.getCol
      rw [hcols, List.find?_cons_of_pos cs (beq_self_eq_true c.1)]
      rfl
    rw [getCol_none_any_false hAdj, getCol_none_any_false hClose]
    simp [hcols, hfirst]
  · intro ticker tbl hcols
    unfold load_adj_close_series
    simp [hcols]

end StockTracker
